import Mathlib

/-!
Verification of the brand-consistency scoring engine
(`packages/crewai-agent/src/on_brand_crew`): a shallow embedding of the
text primitives (`normalize_text`, `contains_phrase`, `tokenize`,
`calculate_word_overlap`), the profile data model (`models.py`), and the
multi-stage verdict pipeline of `BrandCheckerTool._run`
(`tools/brand_checker.py`), together with theorems settling the spec
claims about them.

Texts are embedded as `List Char`; Python floats are embedded as exact
rationals (`ℚ`); operations that can raise in Python (list indexing,
division) are embedded as `Option`-returning functions, so that totality
of the pipeline is a theorem rather than a modelling artifact.
-/

namespace OnBrand

/-! ### Text normalizer (brand_checker.py lines 28-44) -/

/-- The whitespace class of the regex `\s` (ASCII range), used both by
`normalize_text` (run collapsing) and by `str.strip`. -/
def isWS (c : Char) : Bool :=
  c == ' ' || c == '\x09' || c == '\x0a' || c == '\x0d' || c == '\x0b' || c == '\x0c'

/-- Python `str.strip()`: drop whitespace from both ends. -/
def pyStrip (s : List Char) : List Char :=
  ((s.dropWhile isWS).reverse.dropWhile isWS).reverse

/-- Python `re.sub(r'\s+', ' ', s)`: replace every maximal whitespace run by a
single space.  A whitespace character is dropped when the next character
is also whitespace, and emitted as `' '` otherwise. -/
def collapseWS : List Char → List Char
  | [] => []
  | [c] => if isWS c then [' '] else [c]
  | c :: d :: rest =>
    if isWS c && isWS d then collapseWS (d :: rest)
    else (if isWS c then ' ' else c) :: collapseWS (d :: rest)

/-- The source `normalize_text(text)`: `re.sub(r'\s+', ' ', text.lower().strip())`.
Case folding is embedded by `Char.toLower` (ASCII case folding). -/
def normalize_text (s : List Char) : List Char :=
  collapseWS (pyStrip (s.map Char.toLower))

/-- Tests that `small` starts `big` (helper for the substring test). -/
def startsList : List Char → List Char → Bool
  | [], _ => true
  | _ :: _, [] => false
  | a :: as, b :: bs => a == b && startsList as bs

/-- Python's `small in big` on strings: `small` occurs contiguously in `big`. -/
def hasSubList (small : List Char) : List Char → Bool
  | [] => startsList small []
  | b :: bs => startsList small (b :: bs) || hasSubList small bs

/-- The source `contains_phrase(content, phrase)`: normalized substring test. -/
def contains_phrase (content phrase : List Char) : Bool :=
  hasSubList (normalize_text phrase) (normalize_text content)

/-- The separator class of the split regex `[\s.,!?;:'"()\[\]{}]+` in `tokenize`. -/
def isSep (c : Char) : Bool :=
  isWS c || c == '.' || c == ',' || c == '!' || c == '?' || c == ';' || c == ':' ||
    c == '\x27' || c == '\x22' || c == '\x28' || c == '\x29' ||
    c == '\x5b' || c == '\x5d' || c == '\x7b' || c == '\x7d'

/-- Split on runs of separators, dropping empty pieces (`acc` holds the
current word, reversed). -/
def splitToks : List Char → List Char → List (List Char)
  | [], acc => if acc.isEmpty then [] else [acc.reverse]
  | c :: rest, acc =>
    if isSep c then
      if acc.isEmpty then splitToks rest [] else acc.reverse :: splitToks rest []
    else splitToks rest (c :: acc)

/-- The source `tokenize(text)`: normalize, split on whitespace/punctuation runs,
drop empties, and collapse duplicates into a set. -/
def tokenize (s : List Char) : Finset (List Char) :=
  (splitToks (normalize_text s) []).toFinset

/-- The source `calculate_word_overlap(text1, text2)`: Jaccard similarity of the two
token sets; `0.0` if either token set is empty. -/
def calculate_word_overlap (text1 text2 : List Char) : ℚ :=
  let words1 := tokenize text1
  let words2 := tokenize text2
  if words1 = ∅ ∨ words2 = ∅ then 0
  else
    let intersection := (words1 ∩ words2).card
    let union := (words1 ∪ words2).card
    if 0 < union then (intersection : ℚ) / (union : ℚ) else 0

/-- Python division: raises `ZeroDivisionError` on a zero denominator,
embedded as `none`. -/
def pyDiv (a b : ℚ) : Option ℚ :=
  if b = 0 then none else some (a / b)

/-! ### Data model (models.py) -/

/-- The enum `BrandAlignmentStatus`. -/
inductive BrandAlignmentStatus
  | on_brand
  | borderline
  | off_brand
deriving DecidableEq

/-- The enum `ExplanationSeverity`. -/
inductive ExplanationSeverity
  | info
  | warning
  | critical
deriving DecidableEq

/-- The enum `ExplanationAspect`. -/
inductive ExplanationAspect
  | value
  | voice
  | tone
  | never_rule
  | example_match
deriving DecidableEq

/-- One explanation entry of a verdict (`text`, optional `aspect`,
`severity`), as built by `BrandCheckerTool._run`. -/
structure Explanation where
  text : List Char
  aspect : Option ExplanationAspect
  severity : ExplanationSeverity
deriving DecidableEq

/-- The `type` field of a `BrandExample` (`Literal["good", "bad"]`). -/
inductive ExampleType
  | good
  | bad
deriving DecidableEq

/-- The model `BrandExample` (the optional `note` field is never read by the engine
and is omitted). -/
structure BrandExample where
  content : List Char
  type : ExampleType
deriving DecidableEq

/-- The model `BrandProfile` (the fields the engine reads; `description` and the
timestamps are never consulted and are omitted). -/
structure BrandProfile where
  name : List Char
  version : List Char
  values : List (List Char)
  voice_descriptors : List (List Char)
  tone_acceptable : List (List Char)
  tone_unacceptable : List (List Char)
  never_rules : List (List Char)
  examples : List BrandExample
deriving DecidableEq

/-- Split a version string at the dots (keeping empty pieces). -/
def splitOnDot : List Char → List Char → List (List Char)
  | [], acc => [acc.reverse]
  | c :: rest, acc =>
    if c == '.' then acc.reverse :: splitOnDot rest [] else splitOnDot rest (c :: acc)

/-- The semver shape check of `BrandProfile.validate_version`
(`^\d+\.\d+\.\d+$`). -/
def isSemver (s : List Char) : Bool :=
  let parts := splitOnDot s []
  parts.length == 3 && parts.all (fun p => !p.isEmpty && p.all Char.isDigit)

/-- The pydantic validation invariants of `BrandProfile` (non-empty name,
semver version, 1-20 values, 1-10 voice descriptors, non-empty example
contents). -/
def ValidProfile (p : BrandProfile) : Prop :=
  p.name ≠ [] ∧ isSemver p.version = true ∧
  1 ≤ p.values.length ∧ p.values.length ≤ 20 ∧
  1 ≤ p.voice_descriptors.length ∧ p.voice_descriptors.length ≤ 10 ∧
  ∀ e ∈ p.examples, e.content ≠ []

instance (p : BrandProfile) : Decidable (ValidProfile p) := by
  unfold ValidProfile; infer_instance

/-! ### Explanation texts and severity ordering -/

/-- Text `'Contains prohibited content: "<rule>"'`. -/
def prohibitedText (rule : List Char) : List Char :=
  "Contains prohibited content: \x22".toList ++ rule ++ "\x22".toList

/-- Text `'Uses unacceptable tone: "<tone>"'`. -/
def unacceptableToneText (tone : List Char) : List Char :=
  "Uses unacceptable tone: \x22".toList ++ tone ++ "\x22".toList

/-- Text of the example-similarity explanation. -/
def resemblesText : List Char :=
  "Content resembles known off-brand examples".toList

/-- Text of the good-example fallback explanation. -/
def alignsExamplesText : List Char :=
  "Content aligns well with established brand examples".toList

/-- Text `'Content reflects brand values: <joined>'`. -/
def reflectsValuesText (s : List Char) : List Char :=
  "Content reflects brand values: ".toList ++ s

/-- Generic fallback explanation text. -/
def acceptableGenericText : List Char :=
  "Content is acceptable but could better reflect brand values".toList

/-- Text `'Voice could better emphasize: <joined>'`. -/
def voiceEmphText (s : List Char) : List Char :=
  "Voice could better emphasize: ".toList ++ s

/-- Text `'Good use of brand tone: <joined>'`. -/
def goodToneText (s : List Char) : List Char :=
  "Good use of brand tone: ".toList ++ s

/-- Final-guarantee text for an on-brand verdict. -/
def alignsGuidelinesText : List Char :=
  "Content aligns with brand guidelines".toList

/-- Final-guarantee text otherwise. -/
def requiresReviewText : List Char :=
  "Content requires review for brand alignment".toList

/-- Python `", ".join(xs)`. -/
def joinComma (xs : List (List Char)) : List Char :=
  List.intercalate ", ".toList xs

/-- The table `severity_order = {"critical": 0, "warning": 1, "info": 2}`. -/
def sevRank : ExplanationSeverity → ℕ
  | .critical => 0
  | .warning => 1
  | .info => 2

/-- Insert an explanation before the first entry of strictly larger
severity rank (the insertion step of a stable sort by `sevRank`). -/
def insertBySev (e : Explanation) : List Explanation → List Explanation
  | [] => [e]
  | f :: fs =>
    if sevRank e.severity ≤ sevRank f.severity then e :: f :: fs
    else f :: insertBySev e fs

/-- Python `explanations.sort(key=severity rank)`: a stable sort by `sevRank`
(Python's `list.sort` is stable). -/
def sortBySev : List Explanation → List Explanation
  | [] => []
  | e :: es => insertBySev e (sortBySev es)

/-- Rank of a status along the escalation order
on-brand → borderline → off-brand. -/
def statusRank : BrandAlignmentStatus → ℕ
  | .on_brand => 0
  | .borderline => 1
  | .off_brand => 2

/-- The `status_display` mapping of `BrandCheckerTool._run`. -/
def statusDisplayOf : BrandAlignmentStatus → List Char
  | .on_brand => "On Brand ✅".toList
  | .borderline => "Borderline ⚠️".toList
  | .off_brand => "Off Brand ❌".toList

/-! ### Score formulas of the tools -/

/-- The `tone_score` formula of `CheckToneTool._run` (line 167):
`len(acceptable_found) / max(len(acceptable), 1)`. -/
def checkToneScore (content : List Char) (acceptable : List (List Char)) : Option ℚ :=
  let acceptable_found := acceptable.filter (fun tone => contains_phrase content tone)
  pyDiv (acceptable_found.length : ℚ) ((max acceptable.length 1 : ℕ) : ℚ)

/-- The value/voice alignment score formula (`BrandCheckerTool._run`
lines 339-340 and `CheckValueAlignmentTool._run` lines 213-214):
`len(aligned) / max(len(items), 1)`. -/
def alignScore (content : List Char) (items : List (List Char)) : Option ℚ :=
  pyDiv (((items.filter (fun v => contains_phrase content v)).length : ℕ) : ℚ)
    ((max items.length 1 : ℕ) : ℚ)

/-! ### The verdict pipeline (`BrandCheckerTool._run`, lines 271-436) -/

/-- The mutable evaluation state of `_run`: `status`, `confidence`,
and the accumulated `explanations`. -/
structure CheckState where
  status : BrandAlignmentStatus
  confidence : ℕ
  explanations : List Explanation
deriving DecidableEq

/-- Stage 1 (lines 276-288): never-rule violations force off-brand,
confidence 95, and a critical explanation naming `never_violations[0]`
(the indexing is the one fallible operation, guarded by the emptiness
test). -/
def neverStage (never_violations : List (List Char)) (s : CheckState) : Option CheckState :=
  if never_violations.isEmpty then some s
  else do
    let r0 ← never_violations.head?
    some ⟨.off_brand, 95,
      s.explanations ++ [⟨prohibitedText r0, some .never_rule, .critical⟩]⟩

/-- Stage 2 (lines 300-308): unacceptable tone forces off-brand,
`confidence = max(confidence, 90)`, and (if fewer than 3 explanations)
a critical explanation naming `unacceptable_found[0]`. -/
def toneStage (unacceptable_found : List (List Char)) (s : CheckState) : Option CheckState :=
  if unacceptable_found.isEmpty then some s
  else if s.explanations.length < 3 then do
    let t0 ← unacceptable_found.head?
    some ⟨.off_brand, max s.confidence 90,
      s.explanations ++ [⟨unacceptableToneText t0, some .tone, .critical⟩]⟩
  else some ⟨.off_brand, max s.confidence 90, s.explanations⟩

/-- The good/bad similarity maxima of lines 310-318 (`(good, bad)`,
both `0.0` when no example of that type exists). -/
def exampleSims (content : List Char) (examples : List BrandExample) : ℚ × ℚ :=
  examples.foldl (fun gb ex =>
    let sim := calculate_word_overlap content ex.content
    match ex.type with
    | .good => (max gb.1 sim, gb.2)
    | .bad => (gb.1, max gb.2 sim)) (0, 0)

/-- Stage 3 (lines 320-333): bad-example similarity escalation. -/
def exampleStage (bad_similarity : ℚ) (s : CheckState) : CheckState :=
  if bad_similarity > 3/10 then
    { status :=
        if s.status ≠ .off_brand then
          (if bad_similarity > 1/2 then BrandAlignmentStatus.off_brand else .borderline)
        else s.status
      confidence := max s.confidence 80
      explanations :=
        if s.explanations.length < 3 then
          s.explanations ++ [⟨resemblesText, some .example_match,
            if bad_similarity > 1/2 then .critical else .warning⟩]
        else s.explanations }
  else s

/-- Stage 4 (lines 343-351): value/voice alignment adjustment, only when
the status is still on-brand.  `int(combined_score * 15)` truncates
toward zero; the score is nonnegative here, so this is `⌊·⌋₊`. -/
def alignStage (combined_score : ℚ) (s : CheckState) : CheckState :=
  if s.status = .on_brand then
    if combined_score < 3/10 then { s with status := .borderline, confidence := 70 }
    else if combined_score < 1/2 then { s with status := .borderline, confidence := 75 }
    else { s with confidence := 80 + ⌊combined_score * 15⌋₊ }
  else s

/-- Lines 354-373: positive/constructive fallback explanation when none
was added by the stages. -/
def fallbackFill (good_similarity value_score : ℚ) (values_aligned : List (List Char))
    (s : CheckState) : CheckState :=
  if s.explanations.isEmpty then
    if good_similarity > 3/10 then
      { s with explanations := s.explanations ++ [⟨alignsExamplesText, some .example_match, .info⟩] }
    else if value_score > 1/2 then
      { s with explanations := s.explanations ++
          [⟨reflectsValuesText (joinComma (values_aligned.take 2)), some .value, .info⟩] }
    else
      { s with explanations := s.explanations ++ [⟨acceptableGenericText, some .value, .info⟩] }
  else s

/-- Lines 376-384: voice note when slots remain, the voice score is low
and the status is not off-brand. -/
def voiceFill (voice_score : ℚ) (voice_missing : List (List Char)) (s : CheckState) : CheckState :=
  if s.explanations.length < 3 ∧ voice_score < 1/2 ∧ s.status ≠ .off_brand then
    if voice_missing.isEmpty then s
    else
      { s with explanations := s.explanations ++
          [⟨voiceEmphText (joinComma (voice_missing.take 2)), some .voice, .info⟩] }
  else s

/-- Lines 387-393: acceptable-tone note when slots remain. -/
def toneFill (acceptable_found : List (List Char)) (s : CheckState) : CheckState :=
  if s.explanations.length < 3 ∧ acceptable_found ≠ [] then
    { s with explanations := s.explanations ++
        [⟨goodToneText (joinComma (acceptable_found.take 2)), some .tone, .info⟩] }
  else s

/-- Lines 396-404: final guarantee of at least one explanation. -/
def ensureFill (s : CheckState) : CheckState :=
  if s.explanations.isEmpty then
    { s with explanations :=
        [⟨if s.status = .on_brand then alignsGuidelinesText else requiresReviewText,
          none, .info⟩] }
  else s

/-- The evaluation core of `BrandCheckerTool._run` (lines 271-404): the
state after all stages and explanation fills, before severity sorting. -/
def brandCheckCore (profile : BrandProfile) (content : List Char) : Option CheckState := do
  let s0 : CheckState := ⟨.on_brand, 85, []⟩
  let never_violations := profile.never_rules.filter (fun rule => contains_phrase content rule)
  let s1 ← neverStage never_violations s0
  let unacceptable_found := profile.tone_unacceptable.filter (fun tone => contains_phrase content tone)
  let acceptable_found := profile.tone_acceptable.filter (fun tone => contains_phrase content tone)
  let s2 ← toneStage unacceptable_found s1
  let sims := exampleSims content profile.examples
  let s3 := exampleStage sims.2 s2
  let values_aligned := profile.values.filter (fun v => contains_phrase content v)
  let value_score ← alignScore content profile.values
  let voice_score ← alignScore content profile.voice_descriptors
  let combined_score := (value_score + voice_score) / 2
  let s4 := alignStage combined_score s3
  let s5 := fallbackFill sims.1 value_score values_aligned s4
  let voice_missing := profile.voice_descriptors.filter (fun v => ¬ contains_phrase content v)
  let s6 := voiceFill voice_score voice_missing s5
  let s7 := toneFill acceptable_found s6
  some (ensureFill s7)

/-- The verdict fields the spec claims talk about (`checkedAt`,
`contentHash` and the raw `details` record are not consulted by any
claim and are omitted). -/
structure Verdict where
  status : BrandAlignmentStatus
  statusDisplay : List Char
  explanations : List Explanation
  confidence : ℕ
deriving DecidableEq

/-- The tool `BrandCheckerTool._run` end to end: run the core, stable-sort the
explanations by severity rank, truncate to 3, and assemble the verdict
(lines 406-436). -/
def runBrandCheck (profile : BrandProfile) (content : List Char) : Option Verdict := do
  let s ← brandCheckCore profile content
  some ⟨s.status, statusDisplayOf s.status, (sortBySev s.explanations).take 3, s.confidence⟩

/-! ### Pure characterizations of the pipeline stages

The `Option`-returning stage functions above embed the fallible source
operations; the functions below give their (provably equal) pure
values, used to state and prove the claims. -/

/-- Pure value of `neverStage` (the guarded indexing always succeeds). -/
def neverStageP (never_violations : List (List Char)) (s : CheckState) : CheckState :=
  match never_violations with
  | [] => s
  | r :: _ => ⟨.off_brand, 95,
      s.explanations ++ [⟨prohibitedText r, some .never_rule, .critical⟩]⟩

/-- Pure value of `toneStage`. -/
def toneStageP (unacceptable_found : List (List Char)) (s : CheckState) : CheckState :=
  match unacceptable_found with
  | [] => s
  | t :: _ => ⟨.off_brand, max s.confidence 90,
      if s.explanations.length < 3 then
        s.explanations ++ [⟨unacceptableToneText t, some .tone, .critical⟩]
      else s.explanations⟩

/-- Pure value of `alignScore` (the denominator `max(len, 1)` is never
zero). -/
def alignScoreP (content : List Char) (items : List (List Char)) : ℚ :=
  (((items.filter (fun v => contains_phrase content v)).length : ℕ) : ℚ) /
    ((max items.length 1 : ℕ) : ℚ)

/-- The `value_score` of the pipeline. -/
def valueScoreP (p : BrandProfile) (c : List Char) : ℚ :=
  alignScoreP c p.values

/-- The `voice_score` of the pipeline. -/
def voiceScoreP (p : BrandProfile) (c : List Char) : ℚ :=
  alignScoreP c p.voice_descriptors

/-- The `combined_score` of the pipeline. -/
def combinedScoreP (p : BrandProfile) (c : List Char) : ℚ :=
  (valueScoreP p c + voiceScoreP p c) / 2

/-- The `good_similarity` of the pipeline. -/
def goodSimP (p : BrandProfile) (c : List Char) : ℚ :=
  (exampleSims c p.examples).1

/-- The `bad_similarity` of the pipeline. -/
def badSimP (p : BrandProfile) (c : List Char) : ℚ :=
  (exampleSims c p.examples).2

/-- State after the never-rule stage. -/
def stateAfterNever (p : BrandProfile) (c : List Char) : CheckState :=
  neverStageP (p.never_rules.filter (fun rule => contains_phrase c rule)) ⟨.on_brand, 85, []⟩

/-- State after the tone stage. -/
def stateAfterTone (p : BrandProfile) (c : List Char) : CheckState :=
  toneStageP (p.tone_unacceptable.filter (fun tone => contains_phrase c tone))
    (stateAfterNever p c)

/-- State after the example-similarity stage. -/
def stateAfterExample (p : BrandProfile) (c : List Char) : CheckState :=
  exampleStage (badSimP p c) (stateAfterTone p c)

/-- The four explanation-fill steps (lines 354-404) as one state
transformer. -/
def fillsP (p : BrandProfile) (c : List Char) (s : CheckState) : CheckState :=
  ensureFill (toneFill (p.tone_acceptable.filter (fun tone => contains_phrase c tone))
    (voiceFill (voiceScoreP p c) (p.voice_descriptors.filter (fun v => ¬ contains_phrase c v))
      (fallbackFill (goodSimP p c) (valueScoreP p c)
        (p.values.filter (fun v => contains_phrase c v)) s)))

/-- Pipeline tail from a given post-never-stage state. -/
def brandCheckRestP (p : BrandProfile) (c : List Char) (s : CheckState) : CheckState :=
  fillsP p c (alignStage (combinedScoreP p c)
    (exampleStage (badSimP p c)
      (toneStageP (p.tone_unacceptable.filter (fun tone => contains_phrase c tone)) s)))

/-- Pure value of `brandCheckCore`. -/
def brandCheckCoreP (p : BrandProfile) (c : List Char) : CheckState :=
  brandCheckRestP p c (stateAfterNever p c)

/-- Pure value of `runBrandCheck`. -/
def verdictP (p : BrandProfile) (c : List Char) : Verdict :=
  ⟨(brandCheckCoreP p c).status, statusDisplayOf (brandCheckCoreP p c).status,
    (sortBySev (brandCheckCoreP p c).explanations).take 3, (brandCheckCoreP p c).confidence⟩

/-! ### Concrete evaluation fixtures -/

/-- A minimal well-formed profile with no rules, tones or examples. -/
def profilePlain : BrandProfile :=
  ⟨"acme".toList, "1.0.0".toList, [['v']], [['w']], [], [], [], []⟩

/-- A minimal well-formed profile with one never-rule. -/
def profileNever : BrandProfile :=
  ⟨"acme".toList, "1.0.0".toList, [['v']], [['w']], [], [], [['x']], []⟩

/-- A minimal well-formed profile with one `type=bad` example. -/
def profileBadExample : BrandProfile :=
  ⟨"acme".toList, "1.0.0".toList, [['v']], [['w']], [], [], [], [⟨['x'], .bad⟩]⟩

/-- A minimal well-formed profile whose never-rule list holds the empty
string. -/
def profileEmptyRule : BrandProfile :=
  ⟨"acme".toList, "1.0.0".toList, [['v']], [['w']], [], [], [[]], []⟩

end OnBrand

namespace OnBrand

/-! ### Bridging lemmas: the fallible stages always succeed -/

/-- The guarded indexing in the never-rule stage always succeeds. -/
theorem neverStage_eq (nv : List (List Char)) (s : CheckState) :
    neverStage nv s = some (neverStageP nv s) := by
  cases nv with
  | nil => simp [neverStage, neverStageP]
  | cons r rest => simp [neverStage, neverStageP]

/-- The guarded indexing in the tone stage always succeeds. -/
theorem toneStage_eq (uf : List (List Char)) (s : CheckState) :
    toneStage uf s = some (toneStageP uf s) := by
  cases uf with
  | nil => simp [toneStage, toneStageP]
  | cons t rest =>
    by_cases h : s.explanations.length < 3 <;> simp [toneStage, toneStageP, h]

/-- The `max(len, 1)` denominator is never zero, so the score division
always succeeds. -/
theorem alignScore_eq (c : List Char) (items : List (List Char)) :
    alignScore c items = some (alignScoreP c items) := by
  have h0 : max items.length 1 ≠ 0 := by omega
  have h : ¬ ((max items.length 1 : ℕ) : ℚ) = 0 := Nat.cast_ne_zero.mpr h0
  simp only [alignScore, pyDiv, alignScoreP]
  rw [if_neg h]

/-- The evaluation core succeeds on every profile and content, and its
value is the pure pipeline composition. -/
theorem brandCheckCore_eq (p : BrandProfile) (c : List Char) :
    brandCheckCore p c = some (brandCheckCoreP p c) := by
  simp only [brandCheckCore, neverStage_eq, toneStage_eq, alignScore_eq, Option.some_bind]
  rfl

/-- The tool `BrandCheckerTool._run` succeeds on every profile and content, and
produces exactly the pure verdict `verdictP`. -/
theorem runBrandCheck_eq (p : BrandProfile) (c : List Char) :
    runBrandCheck p c = some (verdictP p c) := by
  simp only [runBrandCheck, brandCheckCore_eq, Option.some_bind]
  rfl

end OnBrand

namespace OnBrand

/-! ### The stable severity sort: permutation, ordering, stability -/

theorem length_insertBySev (e : Explanation) (l : List Explanation) :
    (insertBySev e l).length = l.length + 1 := by
  induction l with
  | nil => rfl
  | cons f fs ih =>
    by_cases h : sevRank e.severity ≤ sevRank f.severity <;> simp [insertBySev, h, ih]

theorem length_sortBySev (l : List Explanation) : (sortBySev l).length = l.length := by
  induction l with
  | nil => rfl
  | cons e es ih => simp [sortBySev, length_insertBySev, ih]

theorem mem_insertBySev {x e : Explanation} {l : List Explanation} :
    x ∈ insertBySev e l ↔ x = e ∨ x ∈ l := by
  induction l with
  | nil => simp [insertBySev]
  | cons f fs ih =>
    by_cases h : sevRank e.severity ≤ sevRank f.severity
    · simp [insertBySev, h]
    · simp only [insertBySev, if_neg h, List.mem_cons, ih]
      tauto

theorem mem_sortBySev {x : Explanation} {l : List Explanation} :
    x ∈ sortBySev l ↔ x ∈ l := by
  induction l with
  | nil => simp [sortBySev]
  | cons e es ih => simp [sortBySev, mem_insertBySev, ih]

/-- Inserting an element whose rank is at most every rank of a suffix
lands inside the first part. -/
theorem insertBySev_append (e : Explanation) (m1 m2 : List Explanation)
    (h : ∀ y ∈ m2, sevRank e.severity ≤ sevRank y.severity) :
    insertBySev e (m1 ++ m2) = insertBySev e m1 ++ m2 := by
  induction m1 with
  | nil =>
    cases m2 with
    | nil => rfl
    | cons z zs => simp [insertBySev, h z (by simp)]
  | cons f fs ih =>
    by_cases hf : sevRank e.severity ≤ sevRank f.severity <;>
      simp [insertBySev, hf, ih]

/-- The stable sort splits across a rank-compatible concatenation. -/
theorem sortBySev_append (a b : List Explanation)
    (h : ∀ x ∈ a, ∀ y ∈ b, sevRank x.severity ≤ sevRank y.severity) :
    sortBySev (a ++ b) = sortBySev a ++ sortBySev b := by
  induction a with
  | nil => simp [sortBySev]
  | cons x a' ih =>
    have h' : ∀ z ∈ a', ∀ y ∈ b, sevRank z.severity ≤ sevRank y.severity :=
      fun z hz => h z (List.mem_cons_of_mem x hz)
    calc sortBySev ((x :: a') ++ b) = insertBySev x (sortBySev (a' ++ b)) := rfl
      _ = insertBySev x (sortBySev a' ++ sortBySev b) := by rw [ih h']
      _ = insertBySev x (sortBySev a') ++ sortBySev b :=
          insertBySev_append x _ _
            (fun y hy => h x (List.mem_cons_self x a') y (mem_sortBySev.mp hy))
      _ = sortBySev (x :: a') ++ sortBySev b := rfl

/-- Inserting a critical (rank 0) explanation puts it at the head. -/
theorem insertBySev_min (e : Explanation) (l : List Explanation)
    (h : sevRank e.severity = 0) : insertBySev e l = e :: l := by
  cases l with
  | nil => rfl
  | cons f fs => simp [insertBySev, h]

theorem sortBySev_cons_min (e : Explanation) (l : List Explanation)
    (h : sevRank e.severity = 0) : sortBySev (e :: l) = e :: sortBySev l := by
  simp [sortBySev, insertBySev_min _ _ h]

theorem sorted_insertBySev {e : Explanation} {l : List Explanation}
    (hl : l.Pairwise (fun a b => sevRank a.severity ≤ sevRank b.severity)) :
    (insertBySev e l).Pairwise (fun a b => sevRank a.severity ≤ sevRank b.severity) := by
  induction l with
  | nil => simp [insertBySev]
  | cons f fs ih =>
    rcases List.pairwise_cons.mp hl with ⟨hf, hfs⟩
    by_cases h : sevRank e.severity ≤ sevRank f.severity
    · simp only [insertBySev, if_pos h]
      exact List.pairwise_cons.mpr
        ⟨fun y hy => by
          rcases List.mem_cons.mp hy with rfl | hy
          · exact h
          · exact le_trans h (hf y hy), hl⟩
    · simp only [insertBySev, if_neg h]
      refine List.pairwise_cons.mpr ⟨fun y hy => ?_, ih hfs⟩
      rcases mem_insertBySev.mp hy with rfl | hy
      · exact le_of_lt (Nat.lt_of_not_le h)
      · exact hf y hy

/-- The sorted explanation list is non-decreasing in severity rank. -/
theorem sorted_sortBySev (l : List Explanation) :
    (sortBySev l).Pairwise (fun a b => sevRank a.severity ≤ sevRank b.severity) := by
  induction l with
  | nil => simp [sortBySev]
  | cons e es ih => exact sorted_insertBySev ih

/-- Insertion preserves each per-rank subsequence: the elements walked
past all have strictly smaller rank, so the filter at the inserted
element's rank gains it at the front and every other filter is
untouched. -/
theorem filter_insertBySev (e : Explanation) (l : List Explanation) (k : ℕ) :
    (insertBySev e l).filter (fun x => sevRank x.severity == k) =
      if sevRank e.severity = k then
        e :: l.filter (fun x => sevRank x.severity == k)
      else l.filter (fun x => sevRank x.severity == k) := by
  induction l with
  | nil =>
    by_cases h : sevRank e.severity = k <;> simp [insertBySev, h]
  | cons f fs ih =>
    by_cases hef : sevRank e.severity ≤ sevRank f.severity
    · simp only [insertBySev, if_pos hef]
      by_cases h : sevRank e.severity = k <;> simp [List.filter_cons, h]
    · have hlt : sevRank f.severity < sevRank e.severity := Nat.lt_of_not_le hef
      simp only [insertBySev, if_neg hef]
      by_cases h : sevRank e.severity = k
      · have hfk : ¬ sevRank f.severity = k := by omega
        simp [List.filter_cons, ih, h, hfk]
      · by_cases hfk : sevRank f.severity = k <;>
          simp [List.filter_cons, ih, h, hfk]

/-- Stability of the severity sort: for every rank, the subsequence of
that rank is exactly the insertion-order subsequence. -/
theorem filter_sortBySev (l : List Explanation) (k : ℕ) :
    (sortBySev l).filter (fun x => sevRank x.severity == k) =
      l.filter (fun x => sevRank x.severity == k) := by
  induction l with
  | nil => rfl
  | cons e es ih =>
    rw [sortBySev, filter_insertBySev, ih]
    by_cases h : sevRank e.severity = k <;> simp [List.filter_cons, h]

end OnBrand

namespace OnBrand

/-! ### Explanation-fill facts: the fills never change status or
confidence, only append informational entries -/

theorem fallbackFill_status (g v : ℚ) (va : List (List Char)) (s : CheckState) :
    (fallbackFill g v va s).status = s.status := by
  unfold fallbackFill; split_ifs <;> rfl

theorem fallbackFill_confidence (g v : ℚ) (va : List (List Char)) (s : CheckState) :
    (fallbackFill g v va s).confidence = s.confidence := by
  unfold fallbackFill; split_ifs <;> rfl

theorem fallbackFill_exps (g v : ℚ) (va : List (List Char)) (s : CheckState) :
    ∃ t, (fallbackFill g v va s).explanations = s.explanations ++ t ∧
      ∀ e ∈ t, e.severity = .info := by
  unfold fallbackFill
  split_ifs
  · exact ⟨_, rfl, by simp⟩
  · exact ⟨_, rfl, by simp⟩
  · exact ⟨_, rfl, by simp⟩
  · exact ⟨[], by simp, by simp⟩

theorem fallbackFill_ne_nil (g v : ℚ) (va : List (List Char)) (s : CheckState) :
    (fallbackFill g v va s).explanations ≠ [] := by
  unfold fallbackFill
  split_ifs with h1 h2 h3 <;> simp_all [List.isEmpty_iff]

theorem voiceFill_status (vs : ℚ) (vm : List (List Char)) (s : CheckState) :
    (voiceFill vs vm s).status = s.status := by
  unfold voiceFill; split_ifs <;> rfl

theorem voiceFill_confidence (vs : ℚ) (vm : List (List Char)) (s : CheckState) :
    (voiceFill vs vm s).confidence = s.confidence := by
  unfold voiceFill; split_ifs <;> rfl

theorem voiceFill_exps (vs : ℚ) (vm : List (List Char)) (s : CheckState) :
    ∃ t, (voiceFill vs vm s).explanations = s.explanations ++ t ∧
      ∀ e ∈ t, e.severity = .info := by
  unfold voiceFill
  split_ifs
  · exact ⟨[], by simp, by simp⟩
  · exact ⟨_, rfl, by simp⟩
  · exact ⟨[], by simp, by simp⟩

theorem toneFill_status (af : List (List Char)) (s : CheckState) :
    (toneFill af s).status = s.status := by
  unfold toneFill; split_ifs <;> rfl

theorem toneFill_confidence (af : List (List Char)) (s : CheckState) :
    (toneFill af s).confidence = s.confidence := by
  unfold toneFill; split_ifs <;> rfl

theorem toneFill_exps (af : List (List Char)) (s : CheckState) :
    ∃ t, (toneFill af s).explanations = s.explanations ++ t ∧
      ∀ e ∈ t, e.severity = .info := by
  unfold toneFill
  split_ifs
  · exact ⟨_, rfl, by simp⟩
  · exact ⟨[], by simp, by simp⟩

theorem ensureFill_status (s : CheckState) : (ensureFill s).status = s.status := by
  unfold ensureFill; split_ifs <;> rfl

theorem ensureFill_confidence (s : CheckState) :
    (ensureFill s).confidence = s.confidence := by
  unfold ensureFill; split_ifs <;> rfl

theorem ensureFill_exps (s : CheckState) :
    ∃ t, (ensureFill s).explanations = s.explanations ++ t ∧
      ∀ e ∈ t, e.severity = .info := by
  unfold ensureFill
  by_cases h1 : s.explanations.isEmpty
  · rw [if_pos h1]
    have h : s.explanations = [] := by simpa [List.isEmpty_iff] using h1
    exact ⟨_, by rw [h]; rfl, by simp⟩
  · rw [if_neg h1]
    exact ⟨[], by simp, by simp⟩

theorem fillsP_status (p : BrandProfile) (c : List Char) (s : CheckState) :
    (fillsP p c s).status = s.status := by
  unfold fillsP
  rw [ensureFill_status, toneFill_status, voiceFill_status, fallbackFill_status]

theorem fillsP_confidence (p : BrandProfile) (c : List Char) (s : CheckState) :
    (fillsP p c s).confidence = s.confidence := by
  unfold fillsP
  rw [ensureFill_confidence, toneFill_confidence, voiceFill_confidence,
    fallbackFill_confidence]

theorem fillsP_exps (p : BrandProfile) (c : List Char) (s : CheckState) :
    ∃ t, (fillsP p c s).explanations = s.explanations ++ t ∧
      ∀ e ∈ t, e.severity = .info := by
  unfold fillsP
  obtain ⟨t1, h1, i1⟩ := fallbackFill_exps (goodSimP p c) (valueScoreP p c)
    (p.values.filter (fun v => contains_phrase c v)) s
  obtain ⟨t2, h2, i2⟩ := voiceFill_exps (voiceScoreP p c)
    (p.voice_descriptors.filter (fun v => ¬ contains_phrase c v)) _
  obtain ⟨t3, h3, i3⟩ := toneFill_exps
    (p.tone_acceptable.filter (fun tone => contains_phrase c tone)) _
  obtain ⟨t4, h4, i4⟩ := ensureFill_exps _
  refine ⟨t1 ++ t2 ++ t3 ++ t4, ?_, ?_⟩
  · rw [h4, h3, h2, h1]; simp
  · intro e he
    simp only [List.mem_append] at he
    rcases he with ((he | he) | he) | he
    · exact i1 e he
    · exact i2 e he
    · exact i3 e he
    · exact i4 e he

theorem fillsP_ne_nil (p : BrandProfile) (c : List Char) (s : CheckState) :
    (fillsP p c s).explanations ≠ [] := by
  unfold fillsP
  obtain ⟨t2, h2, _⟩ := voiceFill_exps (voiceScoreP p c)
    (p.voice_descriptors.filter (fun v => ¬ contains_phrase c v))
    (fallbackFill (goodSimP p c) (valueScoreP p c)
      (p.values.filter (fun v => contains_phrase c v)) s)
  obtain ⟨t3, h3, _⟩ := toneFill_exps
    (p.tone_acceptable.filter (fun tone => contains_phrase c tone)) _
  obtain ⟨t4, h4, _⟩ := ensureFill_exps _
  rw [h4, h3, h2]
  simp [fallbackFill_ne_nil (goodSimP p c) (valueScoreP p c)
    (p.values.filter (fun v => contains_phrase c v)) s]

end OnBrand

namespace OnBrand

/-! ### Example-similarity and alignment stage facts -/

theorem exampleStage_low {b : ℚ} (s : CheckState) (hb : ¬ 3/10 < b) :
    exampleStage b s = s := by
  unfold exampleStage; rw [if_neg hb]

theorem exampleStage_high {b : ℚ} {s : CheckState} (hb : 1/2 < b)
    (hl : s.explanations.length < 3) :
    exampleStage b s = ⟨.off_brand, max s.confidence 80,
      s.explanations ++ [⟨resemblesText, some .example_match, .critical⟩]⟩ := by
  have hb3 : b > 3/10 := by linarith
  have hb2 : ((2 : ℚ)⁻¹ : ℚ) < b := by rw [inv_eq_one_div]; exact hb
  unfold exampleStage
  rw [if_pos hb3]
  by_cases hs : s.status = BrandAlignmentStatus.off_brand <;> simp [hs, hb2, hl]

theorem exampleStage_mid {b : ℚ} {s : CheckState} (hb1 : 3/10 < b) (hb2 : ¬ 1/2 < b)
    (hl : s.explanations.length < 3) :
    exampleStage b s =
      ⟨if s.status = .off_brand then .off_brand else .borderline,
        max s.confidence 80,
        s.explanations ++ [⟨resemblesText, some .example_match, .warning⟩]⟩ := by
  have hb2i : ¬ ((2 : ℚ)⁻¹ : ℚ) < b := by rw [inv_eq_one_div]; exact hb2
  unfold exampleStage
  rw [if_pos hb1]
  by_cases hs : s.status = BrandAlignmentStatus.off_brand <;> simp [hs, hb2i, hl]

theorem exampleStage_status_off {b : ℚ} {s : CheckState} (h : s.status = .off_brand) :
    (exampleStage b s).status = .off_brand := by
  unfold exampleStage; split_ifs <;> simp_all

theorem exampleStage_conf_95 {b : ℚ} {s : CheckState} (h : s.confidence = 95) :
    (exampleStage b s).confidence = 95 := by
  unfold exampleStage; split_ifs <;> simp_all

theorem exampleStage_exps_ext (b : ℚ) (s : CheckState) :
    ∃ t, (exampleStage b s).explanations = s.explanations ++ t := by
  unfold exampleStage
  split_ifs <;> first
    | exact ⟨_, rfl⟩
    | exact ⟨[], by simp⟩

theorem exampleStage_status_rank (b : ℚ) (s : CheckState) :
    statusRank s.status ≤ statusRank (exampleStage b s).status := by
  unfold exampleStage
  split_ifs <;> cases hst : s.status <;> simp_all [statusRank]

theorem alignStage_of_ne {cs : ℚ} {s : CheckState} (h : ¬ s.status = .on_brand) :
    alignStage cs s = s := by
  unfold alignStage; rw [if_neg h]

theorem alignStage_status_rank (cs : ℚ) (s : CheckState) :
    statusRank s.status ≤ statusRank (alignStage cs s).status := by
  unfold alignStage
  split_ifs with h1 h2 h3 <;> simp [h1, statusRank]

theorem toneStageP_status_off {uf : List (List Char)} {s : CheckState}
    (h : s.status = .off_brand) : (toneStageP uf s).status = .off_brand := by
  cases uf <;> simp [toneStageP, h]

theorem toneStageP_conf_95 {uf : List (List Char)} {s : CheckState}
    (h : s.confidence = 95) : (toneStageP uf s).confidence = 95 := by
  cases uf <;> simp [toneStageP, h]

theorem toneStageP_exps_ext (uf : List (List Char)) (s : CheckState) :
    ∃ t, (toneStageP uf s).explanations = s.explanations ++ t := by
  cases uf with
  | nil => exact ⟨[], by simp [toneStageP]⟩
  | cons u us =>
    by_cases h : s.explanations.length < 3
    · refine ⟨[⟨unacceptableToneText u, some .tone, .critical⟩], ?_⟩
      simp [toneStageP, h]
    · exact ⟨[], by simp [toneStageP, h]⟩

theorem toneStageP_status_rank (uf : List (List Char)) (s : CheckState) :
    statusRank s.status ≤ statusRank (toneStageP uf s).status := by
  cases uf with
  | nil => exact le_refl _
  | cons t ts => cases s.status <;> simp [toneStageP, statusRank]

theorem neverStageP_status_rank (nv : List (List Char)) (s : CheckState) :
    statusRank s.status ≤ statusRank (neverStageP nv s).status := by
  cases nv with
  | nil => exact le_refl _
  | cons r rs => cases s.status <;> simp [neverStageP, statusRank]

/-! ### Score bounds -/

theorem alignScoreP_nonneg (c : List Char) (items : List (List Char)) :
    0 ≤ alignScoreP c items := by
  unfold alignScoreP
  positivity

theorem alignScoreP_le_one (c : List Char) (items : List (List Char)) :
    alignScoreP c items ≤ 1 := by
  unfold alignScoreP
  rw [div_le_one (by positivity)]
  exact_mod_cast le_trans (List.length_filter_le _ _) (le_max_left _ _)

theorem combinedScoreP_nonneg (p : BrandProfile) (c : List Char) :
    0 ≤ combinedScoreP p c := by
  have h1 := alignScoreP_nonneg c p.values
  have h2 := alignScoreP_nonneg c p.voice_descriptors
  unfold combinedScoreP valueScoreP voiceScoreP
  linarith

theorem combinedScoreP_le_one (p : BrandProfile) (c : List Char) :
    combinedScoreP p c ≤ 1 := by
  have h1 := alignScoreP_le_one c p.values
  have h2 := alignScoreP_le_one c p.voice_descriptors
  unfold combinedScoreP valueScoreP voiceScoreP
  linarith

/-- The confidence `80 + int(combined_score * 15)` never exceeds 95 on a score in `[0, 1]`. -/
theorem conf_formula_le_95 {q : ℚ} (h : q ≤ 1) : 80 + ⌊q * 15⌋₊ ≤ 95 := by
  have h15 : q * 15 ≤ (15 : ℚ) := by linarith
  have := Nat.floor_le_floor h15
  simp only [Nat.floor_ofNat] at this
  omega

/-! ### Shape of the state after the first two stages -/

/-- After the never-rule and tone stages at most two explanations exist,
all of severity critical. -/
theorem stateAfterTone_shape (p : BrandProfile) (c : List Char) :
    (stateAfterTone p c).explanations.length ≤ 2 ∧
      ∀ e ∈ (stateAfterTone p c).explanations, e.severity = .critical := by
  unfold stateAfterTone stateAfterNever
  cases p.never_rules.filter (fun rule => contains_phrase c rule) with
  | nil =>
    cases p.tone_unacceptable.filter (fun tone => contains_phrase c tone) with
    | nil => simp [toneStageP, neverStageP]
    | cons t ts => simp [toneStageP, neverStageP]
  | cons r rs =>
    cases p.tone_unacceptable.filter (fun tone => contains_phrase c tone) with
    | nil => simp [toneStageP, neverStageP]
    | cons t ts => simp [toneStageP, neverStageP]

/-- The core state is the fills applied to the state after the alignment
stage. -/
theorem brandCheckCoreP_def (p : BrandProfile) (c : List Char) :
    brandCheckCoreP p c =
      fillsP p c (alignStage (combinedScoreP p c) (stateAfterExample p c)) := rfl

/-- Once the never-rule stage has produced an off-brand state with
confidence 95, the rest of the pipeline keeps both and only appends
explanations. -/
theorem restP_off95 (p : BrandProfile) (c : List Char) (s : CheckState)
    (hs : s.status = .off_brand) (hc : s.confidence = 95) :
    (brandCheckRestP p c s).status = .off_brand ∧
      (brandCheckRestP p c s).confidence = 95 ∧
      ∃ t, (brandCheckRestP p c s).explanations = s.explanations ++ t := by
  unfold brandCheckRestP
  have h2s : (toneStageP (p.tone_unacceptable.filter (fun tone => contains_phrase c tone)) s).status
      = .off_brand := toneStageP_status_off hs
  have h2c : (toneStageP (p.tone_unacceptable.filter (fun tone => contains_phrase c tone)) s).confidence
      = 95 := toneStageP_conf_95 hc
  have h3s := exampleStage_status_off (b := badSimP p c) h2s
  have h3c := exampleStage_conf_95 (b := badSimP p c) h2c
  have h4 : alignStage (combinedScoreP p c)
      (exampleStage (badSimP p c)
        (toneStageP (p.tone_unacceptable.filter (fun tone => contains_phrase c tone)) s)) =
      exampleStage (badSimP p c)
        (toneStageP (p.tone_unacceptable.filter (fun tone => contains_phrase c tone)) s) :=
    alignStage_of_ne (by rw [h3s]; intro h; cases h)
  rw [h4]
  refine ⟨?_, ?_, ?_⟩
  · rw [fillsP_status]; exact h3s
  · rw [fillsP_confidence]; exact h3c
  · obtain ⟨t2, ht2⟩ := toneStageP_exps_ext
      (p.tone_unacceptable.filter (fun tone => contains_phrase c tone)) s
    obtain ⟨t3, ht3⟩ := exampleStage_exps_ext (badSimP p c)
      (toneStageP (p.tone_unacceptable.filter (fun tone => contains_phrase c tone)) s)
    obtain ⟨t4, ht4, _⟩ := fillsP_exps p c
      (exampleStage (badSimP p c)
        (toneStageP (p.tone_unacceptable.filter (fun tone => contains_phrase c tone)) s))
    exact ⟨t2 ++ t3 ++ t4, by rw [ht4, ht3, ht2]; simp⟩

end OnBrand

namespace OnBrand

/-! ### Further pipeline projections and helpers -/

theorem alignStage_exps (cs : ℚ) (s : CheckState) :
    (alignStage cs s).explanations = s.explanations := by
  unfold alignStage; split_ifs <;> rfl

/-- The final status is the status after the alignment stage. -/
theorem verdictP_status (p : BrandProfile) (c : List Char) :
    (verdictP p c).status =
      (alignStage (combinedScoreP p c) (stateAfterExample p c)).status := by
  show (brandCheckCoreP p c).status = _
  rw [brandCheckCoreP_def, fillsP_status]

/-- The final confidence is the confidence after the alignment stage. -/
theorem verdictP_confidence (p : BrandProfile) (c : List Char) :
    (verdictP p c).confidence =
      (alignStage (combinedScoreP p c) (stateAfterExample p c)).confidence := by
  show (brandCheckCoreP p c).confidence = _
  rw [brandCheckCoreP_def, fillsP_confidence]

/-- An explanation of rank at most 1 that was appended right after at
most two critical entries survives the sort-then-truncate step. -/
theorem mem_take3_sort (l1 t : List Explanation) (e : Explanation)
    (h1 : ∀ x ∈ l1, sevRank x.severity = 0) (hlen : l1.length ≤ 2)
    (he : sevRank e.severity ≤ 1) (ht : ∀ x ∈ t, x.severity = .info) :
    e ∈ (sortBySev ((l1 ++ [e]) ++ t)).take 3 := by
  have hsplit : sortBySev ((l1 ++ [e]) ++ t) = sortBySev (l1 ++ [e]) ++ sortBySev t := by
    apply sortBySev_append
    intro x hx y hy
    have hy2 : sevRank y.severity = 2 := by rw [ht y hy]; rfl
    rcases List.mem_append.mp hx with hx1 | hx2
    · rw [h1 x hx1]; omega
    · have hxe : x = e := by simpa using hx2
      subst hxe; omega
  rw [hsplit, List.take_append_eq_append_take]
  have hlen2 : (sortBySev (l1 ++ [e])).length ≤ 3 := by
    rw [length_sortBySev]
    simp only [List.length_append, List.length_singleton]
    omega
  rw [List.take_of_length_le hlen2]
  exact List.mem_append_left _ (mem_sortBySev.mpr (List.mem_append_right _ (by simp)))

/-- Any matched never-rule forces the off-brand/95 verdict whose leading
explanation names the first matched rule. -/
theorem neverhit (p : BrandProfile) (c : List Char) (r : List Char) (rest : List (List Char))
    (hf : p.never_rules.filter (fun rule => contains_phrase c rule) = r :: rest) :
    (runBrandCheck p c).map Verdict.status = some BrandAlignmentStatus.off_brand ∧
    (runBrandCheck p c).map Verdict.confidence = some 95 ∧
    (runBrandCheck p c).map (fun v => v.explanations.head?) =
      some (some ⟨prohibitedText r, some .never_rule, .critical⟩) := by
  have hsn : stateAfterNever p c =
      ⟨.off_brand, 95, [⟨prohibitedText r, some .never_rule, .critical⟩]⟩ := by
    unfold stateAfterNever
    rw [hf]
    rfl
  obtain ⟨hst, hcf, t, hexps⟩ := restP_off95 p c (stateAfterNever p c)
    (by rw [hsn]) (by rw [hsn])
  have hst' : (brandCheckCoreP p c).status = .off_brand := hst
  have hcf' : (brandCheckCoreP p c).confidence = 95 := hcf
  have hexps' : (brandCheckCoreP p c).explanations =
      (⟨prohibitedText r, some .never_rule, .critical⟩ : Explanation) :: t := by
    have h0 : (brandCheckCoreP p c).explanations = (stateAfterNever p c).explanations ++ t :=
      hexps
    rw [hsn] at h0
    simpa using h0
  refine ⟨?_, ?_, ?_⟩
  · rw [runBrandCheck_eq, Option.map_some']
    exact congrArg some hst'
  · rw [runBrandCheck_eq, Option.map_some']
    exact congrArg some hcf'
  · rw [runBrandCheck_eq, Option.map_some']
    refine congrArg some ?_
    show ((sortBySev (brandCheckCoreP p c).explanations).take 3).head? = _
    rw [hexps', sortBySev_cons_min ⟨prohibitedText r, some ExplanationAspect.never_rule,
      ExplanationSeverity.critical⟩ t rfl]
    rfl

/-! ### Text facts for the empty and whitespace-only phrase -/

theorem startsList_nil (bs : List Char) : startsList [] bs = true := by
  cases bs <;> rfl

theorem hasSubList_nil (bs : List Char) : hasSubList [] bs = true := by
  cases bs with
  | nil => rfl
  | cons b bs' => simp [hasSubList, startsList_nil]

theorem isWS_toLower {c : Char} (h : isWS c = true) : isWS c.toLower = true := by
  have hc := h
  simp only [isWS, Bool.or_eq_true, beq_iff_eq] at hc
  rcases hc with ((((hc | hc) | hc) | hc) | hc) | hc <;> subst hc <;> decide

theorem dropWhile_isWS_nil {l : List Char} (h : l.all isWS = true) :
    l.dropWhile isWS = [] := by
  induction l with
  | nil => rfl
  | cons c cs ih =>
    simp only [List.all_cons, Bool.and_eq_true] at h
    simp [List.dropWhile, h.1, ih h.2]

/-- A whitespace-only phrase normalizes to the empty string. -/
theorem normalize_all_ws (phrase : List Char) (h : phrase.all isWS = true) :
    normalize_text phrase = [] := by
  have h1 : (phrase.map Char.toLower).all isWS = true := by
    rw [List.all_map]
    rw [List.all_eq_true] at h ⊢
    exact fun x hx => isWS_toLower (h x hx)
  have h2 : (phrase.map Char.toLower).dropWhile isWS = [] := dropWhile_isWS_nil h1
  unfold normalize_text pyStrip
  rw [h2]
  rfl

end OnBrand

namespace OnBrand

/-- C1: if at least one never-rule phrase is contained in the content,
the verdict has status off-brand, confidence 95, and its leading
explanation is critical and names the first violated rule in the
profile's original `neverRules` order (the head of the order-preserving
filter). -/
theorem never_rule_stage_verdict (p : BrandProfile) (c : List Char) (r : List Char)
    (rest : List (List Char))
    (hf : p.never_rules.filter (fun rule => contains_phrase c rule) = r :: rest) :
    (runBrandCheck p c).map Verdict.status = some BrandAlignmentStatus.off_brand ∧
    (runBrandCheck p c).map Verdict.confidence = some 95 ∧
    (runBrandCheck p c).map (fun v => v.explanations.head?) =
      some (some ⟨prohibitedText r, some .never_rule, .critical⟩) :=
  neverhit p c r rest hf

theorem never_rule_stage_verdict_witness :
    (runBrandCheck profileNever ['x']).map Verdict.status =
      some BrandAlignmentStatus.off_brand ∧
    (runBrandCheck profileNever ['x']).map Verdict.confidence = some 95 ∧
    (runBrandCheck profileNever ['x']).map (fun v => v.explanations.head?) =
      some (some ⟨prohibitedText ['x'], some .never_rule, .critical⟩) :=
  never_rule_stage_verdict profileNever ['x'] ['x'] [] (by decide)

/-- C2: within one evaluation every pipeline stage either keeps the
status or escalates it along on-brand → borderline → off-brand; the
explanation fills never change the status at all. -/
theorem status_monotone :
    ∀ (nv uf : List (List Char)) (bad combined : ℚ) (p : BrandProfile) (c : List Char)
      (s s' : CheckState),
      (neverStage nv s = some s' → statusRank s.status ≤ statusRank s'.status) ∧
      (toneStage uf s = some s' → statusRank s.status ≤ statusRank s'.status) ∧
      statusRank s.status ≤ statusRank (exampleStage bad s).status ∧
      statusRank s.status ≤ statusRank (alignStage combined s).status ∧
      (fillsP p c s).status = s.status := by
  intro nv uf bad combined p c s s'
  refine ⟨?_, ?_, exampleStage_status_rank bad s, alignStage_status_rank combined s,
    fillsP_status p c s⟩
  · intro h
    rw [neverStage_eq] at h
    have heq : neverStageP nv s = s' := Option.some_injective _ h
    subst heq
    exact neverStageP_status_rank nv s
  · intro h
    rw [toneStage_eq] at h
    have heq : toneStageP uf s = s' := Option.some_injective _ h
    subst heq
    exact toneStageP_status_rank uf s

theorem status_monotone_witness :
    statusRank (⟨.on_brand, 85, []⟩ : CheckState).status ≤
      statusRank (⟨.off_brand, 95,
        [⟨prohibitedText ['x'], some .never_rule, .critical⟩]⟩ : CheckState).status :=
  (status_monotone [['x']] [] 0 0 profilePlain [] ⟨.on_brand, 85, []⟩
    ⟨.off_brand, 95, [⟨prohibitedText ['x'], some .never_rule, .critical⟩]⟩).1 (by decide)

/-- C8: for every profile satisfying the `BrandProfile` invariants and
every content, the evaluation pipeline produces a verdict: every
fallible operation in it (guarded indexing, guarded division) succeeds. -/
theorem pipeline_total (p : BrandProfile) (c : List Char) (_hp : ValidProfile p) :
    (runBrandCheck p c).isSome = true := by
  rw [runBrandCheck_eq]
  rfl

theorem pipeline_total_witness :
    ValidProfile profilePlain ∧ (runBrandCheck profilePlain []).isSome = true :=
  ⟨by decide, pipeline_total profilePlain [] (by decide)⟩

/-- C10: the empty phrase (and any whitespace-only phrase, which
normalizes to empty) is contained in every content, so a profile whose
never-rules hold such a phrase forces off-brand with confidence 95 on
every content. -/
theorem empty_never_rule_behavior :
    (∀ content : List Char, contains_phrase content [] = true) ∧
    (∀ content phrase : List Char, phrase.all isWS = true →
      contains_phrase content phrase = true) ∧
    (∀ (p : BrandProfile) (c r : List Char), r ∈ p.never_rules → normalize_text r = [] →
      (runBrandCheck p c).map Verdict.status = some BrandAlignmentStatus.off_brand ∧
      (runBrandCheck p c).map Verdict.confidence = some 95) := by
  refine ⟨?_, ?_, ?_⟩
  · intro content
    exact hasSubList_nil _
  · intro content phrase h
    show hasSubList (normalize_text phrase) (normalize_text content) = true
    rw [normalize_all_ws phrase h]
    exact hasSubList_nil _
  · intro p c r hr hnr
    have hcp : contains_phrase c r = true := by
      unfold contains_phrase
      rw [hnr]
      exact hasSubList_nil _
    have hmem : r ∈ p.never_rules.filter (fun rule => contains_phrase c rule) :=
      List.mem_filter.mpr ⟨hr, hcp⟩
    have hne : p.never_rules.filter (fun rule => contains_phrase c rule) ≠ [] :=
      List.ne_nil_of_mem hmem
    obtain ⟨r0, rest, hf⟩ := List.exists_cons_of_ne_nil hne
    obtain ⟨h1, h2, _⟩ := neverhit p c r0 rest hf
    exact ⟨h1, h2⟩

theorem empty_never_rule_behavior_witness :
    contains_phrase "abc".toList [] = true ∧
    contains_phrase "abc".toList [' ', '\x09'] = true ∧
    (runBrandCheck profileEmptyRule ['q']).map Verdict.status =
      some BrandAlignmentStatus.off_brand :=
  ⟨empty_never_rule_behavior.1 "abc".toList,
   empty_never_rule_behavior.2.1 "abc".toList [' ', '\x09'] (by decide),
   (empty_never_rule_behavior.2.2 profileEmptyRule ['q'] [] (by decide) (by decide)).1⟩

end OnBrand

namespace OnBrand

/-- C5: every verdict carries between one and three explanations. -/
theorem explanation_bounds (p : BrandProfile) (c : List Char) (v : Verdict)
    (hv : runBrandCheck p c = some v) :
    1 ≤ v.explanations.length ∧ v.explanations.length ≤ 3 := by
  rw [runBrandCheck_eq] at hv
  have hveq : verdictP p c = v := Option.some_injective _ hv
  subst hveq
  have hne : (brandCheckCoreP p c).explanations ≠ [] := by
    rw [brandCheckCoreP_def]
    exact fillsP_ne_nil p c _
  constructor
  · show 1 ≤ ((sortBySev (brandCheckCoreP p c).explanations).take 3).length
    rw [List.length_take, length_sortBySev]
    have h0 : (brandCheckCoreP p c).explanations.length ≠ 0 := by
      simpa [List.length_eq_zero] using hne
    omega
  · show ((sortBySev (brandCheckCoreP p c).explanations).take 3).length ≤ 3
    rw [List.length_take]
    omega

theorem explanation_bounds_witness :
    1 ≤ (verdictP profilePlain []).explanations.length ∧
      (verdictP profilePlain []).explanations.length ≤ 3 :=
  explanation_bounds profilePlain [] (verdictP profilePlain [])
    (runBrandCheck_eq profilePlain [])

/-- C6: the verdict's explanations are the stable severity sort of the
accumulated explanations truncated to the first three afterwards: they
are non-decreasing in severity rank, and for every rank the sort keeps
that rank's entries in insertion order. -/
theorem explanation_ordering (p : BrandProfile) (c : List Char) (v : Verdict)
    (hv : runBrandCheck p c = some v) :
    v.explanations = (sortBySev (brandCheckCoreP p c).explanations).take 3 ∧
    v.explanations.Pairwise (fun a b => sevRank a.severity ≤ sevRank b.severity) ∧
    ∀ k, (sortBySev (brandCheckCoreP p c).explanations).filter
        (fun e => sevRank e.severity == k) =
      (brandCheckCoreP p c).explanations.filter (fun e => sevRank e.severity == k) := by
  rw [runBrandCheck_eq] at hv
  have hveq : verdictP p c = v := Option.some_injective _ hv
  subst hveq
  refine ⟨rfl, ?_, fun k => filter_sortBySev _ k⟩
  exact List.Pairwise.sublist (List.take_sublist 3 _) (sorted_sortBySev _)

theorem explanation_ordering_witness :
    (verdictP profilePlain []).explanations =
      (sortBySev (brandCheckCoreP profilePlain []).explanations).take 3 ∧
    (sortBySev (brandCheckCoreP profilePlain []).explanations).filter
        (fun e => sevRank e.severity == 0) =
      (brandCheckCoreP profilePlain []).explanations.filter
        (fun e => sevRank e.severity == 0) :=
  ⟨(explanation_ordering profilePlain [] (verdictP profilePlain [])
      (runBrandCheck_eq profilePlain [])).1,
   (explanation_ordering profilePlain [] (verdictP profilePlain [])
      (runBrandCheck_eq profilePlain [])).2.2 0⟩

end OnBrand

namespace OnBrand

/-- C4: when the status is still on-brand at the value/voice alignment
stage, `combinedScore` below 0.3 gives borderline/70, in [0.3, 0.5)
gives borderline/75, and at least 0.5 keeps on-brand with confidence
`80 + floor(combinedScore * 15)`, never above 95; when a prior stage
escalated, the stage changes neither status nor confidence. -/
theorem alignment_stage_behavior (p : BrandProfile) (c : List Char) (v : Verdict)
    (hv : runBrandCheck p c = some v) :
    ((stateAfterExample p c).status = .on_brand ∧ combinedScoreP p c < 3/10 →
      v.status = .borderline ∧ v.confidence = 70) ∧
    ((stateAfterExample p c).status = .on_brand ∧ 3/10 ≤ combinedScoreP p c ∧
        combinedScoreP p c < 1/2 →
      v.status = .borderline ∧ v.confidence = 75) ∧
    ((stateAfterExample p c).status = .on_brand ∧ 1/2 ≤ combinedScoreP p c →
      v.status = .on_brand ∧ v.confidence = 80 + ⌊combinedScoreP p c * 15⌋₊ ∧
        v.confidence ≤ 95) ∧
    (¬ (stateAfterExample p c).status = .on_brand →
      v.status = (stateAfterExample p c).status ∧
        v.confidence = (stateAfterExample p c).confidence) := by
  rw [runBrandCheck_eq] at hv
  have hveq : verdictP p c = v := Option.some_injective _ hv
  subst hveq
  refine ⟨?_, ?_, ?_, ?_⟩
  · rintro ⟨hon, hlt⟩
    have h1 := verdictP_status p c
    have h2 := verdictP_confidence p c
    unfold alignStage at h1 h2
    rw [if_pos hon, if_pos hlt] at h1 h2
    exact ⟨h1, h2⟩
  · rintro ⟨hon, hge, hlt⟩
    have hn1 : ¬ combinedScoreP p c < 3/10 := not_lt.mpr hge
    have h1 := verdictP_status p c
    have h2 := verdictP_confidence p c
    unfold alignStage at h1 h2
    rw [if_pos hon, if_neg hn1, if_pos hlt] at h1 h2
    exact ⟨h1, h2⟩
  · rintro ⟨hon, hge⟩
    have hn1 : ¬ combinedScoreP p c < 3/10 :=
      not_lt.mpr (le_trans (by norm_num) hge)
    have hn2 : ¬ combinedScoreP p c < 1/2 := not_lt.mpr hge
    have h1 := verdictP_status p c
    have h2 := verdictP_confidence p c
    unfold alignStage at h1 h2
    rw [if_pos hon, if_neg hn1, if_neg hn2] at h1 h2
    refine ⟨h1.trans hon, h2, ?_⟩
    rw [h2]
    exact conf_formula_le_95 (combinedScoreP_le_one p c)
  · intro hne
    have h1 := verdictP_status p c
    have h2 := verdictP_confidence p c
    rw [alignStage_of_ne hne] at h1 h2
    exact ⟨h1, h2⟩

theorem alignment_stage_behavior_witness :
    (verdictP profilePlain []).status = .borderline ∧
      (verdictP profilePlain []).confidence = 70 :=
  (alignment_stage_behavior profilePlain [] (verdictP profilePlain [])
    (runBrandCheck_eq profilePlain [])).1 (by with_unfolding_all decide)

/-- C3: a bad-example similarity above 0.5 forces off-brand with a
critical "resembles" explanation in the final list; one in (0.3, 0.5]
escalates to borderline unless already off-brand, with a warning
explanation; in both sub-cases the final confidence is
`max(confidence, 80)` over the pre-stage confidence. -/
theorem example_similarity_stage (p : BrandProfile) (c : List Char) (v : Verdict)
    (hv : runBrandCheck p c = some v) :
    (1/2 < badSimP p c →
      v.status = .off_brand ∧
      (⟨resemblesText, some .example_match, .critical⟩ : Explanation) ∈ v.explanations ∧
      v.confidence = max (stateAfterTone p c).confidence 80) ∧
    (3/10 < badSimP p c ∧ ¬ 1/2 < badSimP p c →
      ((stateAfterTone p c).status ≠ .off_brand → v.status = .borderline) ∧
      ((stateAfterTone p c).status = .off_brand → v.status = .off_brand) ∧
      (⟨resemblesText, some .example_match, .warning⟩ : Explanation) ∈ v.explanations ∧
      v.confidence = max (stateAfterTone p c).confidence 80) := by
  rw [runBrandCheck_eq] at hv
  have hveq : verdictP p c = v := Option.some_injective _ hv
  subst hveq
  obtain ⟨hlen, hcrit⟩ := stateAfterTone_shape p c
  constructor
  · intro hb
    have hst3 : stateAfterExample p c =
        ⟨.off_brand, max (stateAfterTone p c).confidence 80,
          (stateAfterTone p c).explanations ++
            [⟨resemblesText, some .example_match, .critical⟩]⟩ := by
      unfold stateAfterExample
      exact exampleStage_high hb (by omega)
    have hoff : ¬ (stateAfterExample p c).status = .on_brand := by
      rw [hst3]; intro hcon; cases hcon
    refine ⟨?_, ?_, ?_⟩
    · rw [verdictP_status p c, alignStage_of_ne hoff, hst3]
    · obtain ⟨t, hexps, hinfo⟩ := fillsP_exps p c
        (alignStage (combinedScoreP p c) (stateAfterExample p c))
      have hcoreexp : (brandCheckCoreP p c).explanations =
          ((stateAfterTone p c).explanations ++
            [⟨resemblesText, some .example_match, .critical⟩]) ++ t := by
        rw [brandCheckCoreP_def, hexps, alignStage_exps, hst3]
      show _ ∈ (sortBySev (brandCheckCoreP p c).explanations).take 3
      rw [hcoreexp]
      exact mem_take3_sort _ _ _ (fun x hx => by rw [hcrit x hx]; rfl) hlen (by decide)
        (fun x hx => hinfo x hx)
    · rw [verdictP_confidence p c, alignStage_of_ne hoff, hst3]
  · rintro ⟨hb1, hb2⟩
    have hst3 : stateAfterExample p c =
        ⟨if (stateAfterTone p c).status = .off_brand then .off_brand else .borderline,
          max (stateAfterTone p c).confidence 80,
          (stateAfterTone p c).explanations ++
            [⟨resemblesText, some .example_match, .warning⟩]⟩ := by
      unfold stateAfterExample
      exact exampleStage_mid hb1 hb2 (by omega)
    have hnon : ¬ (stateAfterExample p c).status = .on_brand := by
      rw [hst3]
      by_cases h2 : (stateAfterTone p c).status = .off_brand <;> simp [h2]
    refine ⟨?_, ?_, ?_, ?_⟩
    · intro hne
      rw [verdictP_status p c, alignStage_of_ne hnon, hst3]
      simp [hne]
    · intro heq
      rw [verdictP_status p c, alignStage_of_ne hnon, hst3]
      simp [heq]
    · obtain ⟨t, hexps, hinfo⟩ := fillsP_exps p c
        (alignStage (combinedScoreP p c) (stateAfterExample p c))
      have hcoreexp : (brandCheckCoreP p c).explanations =
          ((stateAfterTone p c).explanations ++
            [⟨resemblesText, some .example_match, .warning⟩]) ++ t := by
        rw [brandCheckCoreP_def, hexps, alignStage_exps, hst3]
      show _ ∈ (sortBySev (brandCheckCoreP p c).explanations).take 3
      rw [hcoreexp]
      exact mem_take3_sort _ _ _ (fun x hx => by rw [hcrit x hx]; rfl) hlen (by decide)
        (fun x hx => hinfo x hx)
    · rw [verdictP_confidence p c, alignStage_of_ne hnon, hst3]

theorem example_similarity_stage_witness :
    (verdictP profileBadExample ['x']).status = .off_brand ∧
    (⟨resemblesText, some .example_match, .critical⟩ : Explanation) ∈
      (verdictP profileBadExample ['x']).explanations ∧
    (verdictP profileBadExample ['x']).confidence =
      max (stateAfterTone profileBadExample ['x']).confidence 80 :=
  (example_similarity_stage profileBadExample ['x'] (verdictP profileBadExample ['x'])
    (runBrandCheck_eq profileBadExample ['x'])).1 (by with_unfolding_all decide)

end OnBrand

namespace OnBrand

/-- C7 counterexample: `","` is a non-empty text whose token set is
empty, so its self-similarity is 0, not 1. -/
theorem jaccard_self_comma_zero :
    calculate_word_overlap [','] [','] = 0 ∧ ([','] : List Char) ≠ [] := by
  constructor
  · with_unfolding_all decide
  · decide

/-- C7 (amended): the Jaccard similarity is symmetric, equals 1 on any
text with a non-empty token set paired with itself, is 0 on the empty
text, stays in [0, 1], and is 0 whenever either token set is empty.
(Self-similarity 1 holds for non-empty token sets, not for all non-empty
texts: a punctuation-only text tokenizes to the empty set.) -/
theorem jaccard_properties :
    (∀ a b : List Char, calculate_word_overlap a b = calculate_word_overlap b a) ∧
    (∀ a : List Char, tokenize a ≠ ∅ → calculate_word_overlap a a = 1) ∧
    (∀ x : List Char, calculate_word_overlap [] x = 0) ∧
    (∀ a b : List Char, 0 ≤ calculate_word_overlap a b ∧ calculate_word_overlap a b ≤ 1) ∧
    (∀ a b : List Char, tokenize a = ∅ ∨ tokenize b = ∅ →
      calculate_word_overlap a b = 0) := by
  refine ⟨?_, ?_, ?_, ?_, ?_⟩
  · intro a b
    simp only [calculate_word_overlap]
    rw [Finset.inter_comm, Finset.union_comm]
    by_cases h : tokenize a = ∅ ∨ tokenize b = ∅
    · rw [if_pos h, if_pos h.symm]
    · have h' : ¬ (tokenize b = ∅ ∨ tokenize a = ∅) := fun hc => h (Or.symm hc)
      rw [if_neg h, if_neg h']
  · intro a ha
    have hpos : 0 < (tokenize a).card :=
      Finset.card_pos.mpr (Finset.nonempty_iff_ne_empty.mpr ha)
    have hne : ((tokenize a).card : ℚ) ≠ 0 := by exact_mod_cast hpos.ne'
    simp only [calculate_word_overlap, Finset.inter_self, Finset.union_self, or_self]
    rw [if_neg ha, if_pos hpos]
    exact div_self hne
  · intro x
    have h : tokenize [] = (∅ : Finset (List Char)) := rfl
    simp only [calculate_word_overlap]
    rw [if_pos (Or.inl h)]
  · intro a b
    simp only [calculate_word_overlap]
    split_ifs with h1 h2
    · exact ⟨le_refl 0, by norm_num⟩
    · constructor
      · positivity
      · rw [div_le_one (by exact_mod_cast h2)]
        have hsub : tokenize a ∩ tokenize b ⊆ tokenize a ∪ tokenize b :=
          le_trans Finset.inter_subset_left Finset.subset_union_left
        exact_mod_cast Finset.card_le_card hsub
    · exact ⟨le_refl 0, by norm_num⟩
  · intro a b h
    simp only [calculate_word_overlap]
    rw [if_pos h]

theorem jaccard_properties_witness :
    calculate_word_overlap ['a'] ['a'] = 1 ∧
      calculate_word_overlap [] ['a'] = 0 ∧
      calculate_word_overlap ['a'] [','] = 0 :=
  ⟨jaccard_properties.2.1 ['a'] (by decide),
   jaccard_properties.2.2.1 ['a'],
   jaccard_properties.2.2.2.2 ['a'] [','] (Or.inr (by decide))⟩

/-- C9: every score formula divides by `max(len, 1)`, so an empty
denominator list yields score 0 instead of a division error: this holds
for the `tone_score` of `CheckToneTool` and for the value/voice
alignment scores of the pipeline. -/
theorem zero_denominator_scores :
    ∀ content : List Char,
      checkToneScore content [] = some 0 ∧ alignScore content [] = some 0 := by
  intro content
  constructor
  · with_unfolding_all rfl
  · with_unfolding_all rfl

end OnBrand
